import Mathlib

/-!
Verification development for the ttfl-picker repository.

This file gives a shallow embedding of the scoring pipeline of the
repository (src/ttfl.py, src/form_analysis.py, src/picker.py,
src/defense_stats.py, src/injuries.py, src/session.py) and proves the
frozen specification claims about it.

Modelling conventions:
* Python float arithmetic is modelled by exact rational arithmetic (ℚ);
  Python int arithmetic by ℤ/ℕ.
* Python strings are modelled by `List Char`; `str.lower`, `str.strip`
  and substring containment are implemented directly on character lists.
* Python dicts that are only used for ordered iteration and lookup are
  modelled by association lists in insertion order.
* `dict.get(k, 0) or 0` (missing or null treated as 0) is modelled by
  `Option`-valued fields read with `Option.getD 0`.
* The only non-rational primitive in the pipeline, the square root inside
  `statistics.stdev`, is modelled by an arbitrary parameter
  `sqrtQ : ℚ → ℚ`; every property proved about the consistency factor
  holds for every model of the square root, using nothing beyond
  `sqrtQ 0 = 0` (true of the exact square root and of IEEE `sqrt`).
-/

/- ================================================================== -/
/- Definitions                                                         -/
/- ================================================================== -/

/-- Player name / free-text string, modelled as a list of characters. -/
abbrev Name := List Char

/-- Box-score stat line for one game (src/ttfl.py).  Each field is
`Option ℤ`: `none` models a missing or null entry of the Python stats
dict, read back with `Option.getD 0` which models `stats.get(k, 0) or 0`. -/
structure BoxStats where
  PTS : Option ℤ
  REB : Option ℤ
  AST : Option ℤ
  STL : Option ℤ
  BLK : Option ℤ
  FGM : Option ℤ
  FGA : Option ℤ
  FG3M : Option ℤ
  FG3A : Option ℤ
  FTM : Option ℤ
  FTA : Option ℤ
  TOV : Option ℤ

/-- Embedding of `calculate_ttfl` (src/ttfl.py lines 4-41). -/
def calculate_ttfl (stats : BoxStats) : ℤ :=
  let pts := stats.PTS.getD 0
  let reb := stats.REB.getD 0
  let ast := stats.AST.getD 0
  let stl := stats.STL.getD 0
  let blk := stats.BLK.getD 0
  let fgm := stats.FGM.getD 0
  let fg3m := stats.FG3M.getD 0
  let ftm := stats.FTM.getD 0
  let fga := stats.FGA.getD 0
  let fg3a := stats.FG3A.getD 0
  let fta := stats.FTA.getD 0
  let tov := stats.TOV.getD 0
  let fg_miss := fga - fgm
  let fg3_miss := fg3a - fg3m
  let ft_miss := fta - ftm
  let positive := pts + reb + ast + stl + blk + fgm + fg3m + ftm
  let negative := tov + fg_miss + fg3_miss + ft_miss
  positive - negative

/-- Weight table for the last 10 games, most recent first
(src/form_analysis.py line 8, `GAME_WEIGHTS`). -/
def GAME_WEIGHTS : List ℚ :=
  [0.25, 0.18, 0.14, 0.11, 0.09, 0.07, 0.06, 0.05, 0.03, 0.02]

/-- Maximum trend adjustment (src/form_analysis.py line 11). -/
def MAX_TREND_ADJUSTMENT : ℚ := 0.20

/-- Maximum consistency penalty (src/form_analysis.py line 12). -/
def MAX_CONSISTENCY_PENALTY : ℚ := 0.15

/-- Embedding of `calculate_weighted_average` (src/form_analysis.py
lines 26-50).  The comprehension summing `score * weight` over
`zip(scores[:num_games], normalized_weights)` is modelled by
`List.zip` / `List.map` / `List.sum`. -/
def calculate_weighted_average (scores : List ℚ) : ℚ :=
  if scores = [] then 0.0
  else
    let num_games := min scores.length GAME_WEIGHTS.length
    let weights := GAME_WEIGHTS.take num_games
    let weight_sum := weights.sum
    let normalized_weights := weights.map (fun w => w / weight_sum)
    let weighted_sum :=
      (((scores.take num_games).zip normalized_weights).map
        (fun p => p.1 * p.2)).sum
    weighted_sum

/-- Embedding of `calculate_trend_factor` (src/form_analysis.py
lines 53-105).  The regression sums over `enumerate(chronological)` and
`range(n)` are modelled by sums over `Finset.range n` with list elements
read by `List.getD`. -/
def calculate_trend_factor (scores : List ℚ) : ℚ × String :=
  if scores.length < 3 then (1.0, "stable")
  else
    let chronological := scores.reverse
    let n := chronological.length
    let x_mean : ℚ := ((n : ℚ) - 1) / 2
    let y_mean : ℚ := chronological.sum / (n : ℚ)
    let numerator :=
      ∑ i in Finset.range n,
        ((i : ℚ) - x_mean) * (chronological.getD i 0 - y_mean)
    let denominator := ∑ i in Finset.range n, ((i : ℚ) - x_mean) ^ 2
    if denominator = 0 then (1.0, "stable")
    else
      let slope := numerator / denominator
      if y_mean = 0 then (1.0, "stable")
      else
        let slope_pct := slope / y_mean
        let raw_adjustment := slope_pct * (n : ℚ)
        let capped_adjustment :=
          max (-MAX_TREND_ADJUSTMENT) (min MAX_TREND_ADJUSTMENT raw_adjustment)
        let trend_factor := 1.0 + capped_adjustment
        let direction :=
          if capped_adjustment > 0.05 then "hot"
          else if capped_adjustment < -0.05 then "cold"
          else "stable"
        (trend_factor, direction)

/-- Embedding of `calculate_consistency_factor` (src/form_analysis.py
lines 108-147).  `statistics.stdev(scores)` is the square root of the
sample variance `Σ (x − mean)² / (n − 1)`; the square root itself is
modelled by the parameter `sqrtQ` (see the file header).  The
`try/except StatisticsError` of the source is unreachable here because
the branch is only entered with at least 3 scores. -/
def calculate_consistency_factor (sqrtQ : ℚ → ℚ) (scores : List ℚ) : ℚ :=
  if scores.length < 3 then 1.0
  else
    let mean := scores.sum / (scores.length : ℚ)
    if mean = 0 then 1.0
    else
      let std_dev :=
        sqrtQ ((scores.map (fun x => (x - mean) ^ 2)).sum /
          ((scores.length : ℚ) - 1))
      let cv := std_dev / mean
      if cv ≤ 0.2 then 1.0
      else
        let penalty_range := min 1.0 ((cv - 0.2) / 0.3)
        let penalty := penalty_range * MAX_CONSISTENCY_PENALTY
        1.0 - penalty

/-- Result record of `analyze_form` (src/form_analysis.py, dataclass
`FormAnalysis`). -/
structure FormAnalysis where
  weighted_avg : ℚ
  trend_factor : ℚ
  trend_direction : String
  consistency_factor : ℚ
  simple_avg : ℚ

/-- Embedding of `calculate_form_score` (src/form_analysis.py lines 183-193). -/
def calculate_form_score (analysis : FormAnalysis) : ℚ :=
  analysis.weighted_avg * analysis.trend_factor * analysis.consistency_factor

/-- Embedding of `analyze_form` (src/form_analysis.py lines 150-180),
parametrised by the square-root model `sqrtQ` used by the consistency
factor. -/
def analyze_form (sqrtQ : ℚ → ℚ) (scores : List ℚ) : FormAnalysis :=
  if scores = [] then
    { weighted_avg := 0.0, trend_factor := 1.0, trend_direction := "stable",
      consistency_factor := 1.0, simple_avg := 0.0 }
  else
    let simple_avg := scores.sum / (scores.length : ℚ)
    let weighted_avg := calculate_weighted_average scores
    let tf := calculate_trend_factor scores
    let consistency_factor := calculate_consistency_factor sqrtQ scores
    { weighted_avg := weighted_avg, trend_factor := tf.1,
      trend_direction := tf.2, consistency_factor := consistency_factor,
      simple_avg := simple_avg }

/-- Embedding of `calculate_final_score` (src/picker.py lines 66-96). -/
def calculate_final_score (form_analysis : FormAnalysis)
    (defense_factor defender_factor dnp_risk : ℚ)
    (use_form use_defense : Bool) : ℚ :=
  let form_score :=
    if use_form then calculate_form_score form_analysis
    else form_analysis.simple_avg
  let matchup_adjusted :=
    if use_defense then
      let defense_adjusted := form_score * defense_factor
      defense_adjusted * defender_factor
    else form_score
  let final_score := matchup_adjusted * (1 - dnp_risk)
  final_score

/-- Opponent-allowed per-game stats row for one team
(src/defense_stats.py).  Fields are `Option ℚ` read with `Option.getD 0`,
modelling `stats.get(k, 0) or 0`. -/
structure OppStats where
  OPP_PTS : Option ℚ
  OPP_REB : Option ℚ
  OPP_AST : Option ℚ
  OPP_FGM : Option ℚ
  OPP_FG3M : Option ℚ
  OPP_FTM : Option ℚ
  OPP_TOV : Option ℚ
  OPP_FGA : Option ℚ
  OPP_FG3A : Option ℚ
  OPP_FTA : Option ℚ

/-- Maximum defense adjustment (src/defense_stats.py line 13). -/
def MAX_DEFENSE_ADJUSTMENT : ℚ := 0.30

/-- Embedding of `_calculate_estimated_ttfl_allowed`
(src/defense_stats.py lines 37-73).  The `positive += 15` line (fixed
estimate for steals and blocks allowed) is folded into `positive`. -/
def _calculate_estimated_ttfl_allowed (stats : OppStats) : ℚ :=
  let opp_pts := stats.OPP_PTS.getD 0
  let opp_reb := stats.OPP_REB.getD 0
  let opp_ast := stats.OPP_AST.getD 0
  let opp_fgm := stats.OPP_FGM.getD 0
  let opp_fg3m := stats.OPP_FG3M.getD 0
  let opp_ftm := stats.OPP_FTM.getD 0
  let opp_tov := stats.OPP_TOV.getD 0
  let opp_fga := stats.OPP_FGA.getD 0
  let opp_fg3a := stats.OPP_FG3A.getD 0
  let opp_fta := stats.OPP_FTA.getD 0
  let opp_fg_miss := opp_fga - opp_fgm
  let opp_fg3_miss := opp_fg3a - opp_fg3m
  let opp_ft_miss := opp_fta - opp_ftm
  let positive := opp_pts + opp_reb + opp_ast + opp_fgm + opp_fg3m +
    opp_ftm + 15
  let negative := opp_tov + opp_fg_miss + opp_fg3_miss + opp_ft_miss
  let team_ttfl_allowed := positive - negative
  team_ttfl_allowed / 5

/-- Lookup in a Python dict modelled as an association list in insertion
order: the most recently inserted binding for a key wins. -/
def dict_get : List (ℕ × ℚ) → ℕ → Option ℚ
  | [], _ => none
  | (k, v) :: rest, t =>
    match dict_get rest t with
    | some w => some w
    | none => if k = t then some v else none

/-- Embedding of `fetch_team_defense_stats` (src/defense_stats.py
lines 92-189) restricted to the data the claims read: the input `data`
models the network fetch outcome (`none` for a failed fetch or empty
frame), and the result maps each row's team id to its `defense_factor`.
The factor is the clamped ratio to the league average when that average
is positive, and stays at its initial value 1.0 otherwise, exactly as in
the source's `if league_avg > 0` guard. -/
def fetch_team_defense_stats (data : Option (List (ℕ × OppStats))) :
    List (ℕ × ℚ) :=
  match data with
  | none => []
  | some rows =>
    let ttfl_allowed_values :=
      rows.map (fun r => _calculate_estimated_ttfl_allowed r.2)
    let league_avg := ttfl_allowed_values.sum /
      (ttfl_allowed_values.length : ℚ)
    rows.map (fun r => (r.1,
      if league_avg > 0 then
        max (1.0 - MAX_DEFENSE_ADJUSTMENT)
          (min (1.0 + MAX_DEFENSE_ADJUSTMENT)
            (_calculate_estimated_ttfl_allowed r.2 / league_avg))
      else 1.0))

/-- Embedding of `get_defense_factor` (src/defense_stats.py
lines 192-210). -/
def get_defense_factor (opponent_team_id : ℕ)
    (data : Option (List (ℕ × OppStats))) : ℚ :=
  match dict_get (fetch_team_defense_stats data) opponent_team_id with
  | some f => f
  | none => 1.0

/-- A stats row that is all zeros except for turnovers forced; used as a
concrete input below. -/
def oppStatsTovOnly (t : ℚ) : OppStats :=
  ⟨none, none, none, none, none, none, some t, none, none, none⟩

/-- Whitespace trim on both ends of a character list, modelling Python
`str.strip()`. -/
def stripChars (l : Name) : Name :=
  ((l.dropWhile Char.isWhitespace).reverse.dropWhile Char.isWhitespace).reverse

/-- Character-wise lowercasing, modelling Python `str.lower()` (exact on
ASCII, which covers every key matched below). -/
def toLowerName (l : Name) : Name := l.map Char.toLower

/-- DNP risk probabilities by injury status (src/injuries.py lines 8-19),
as an association list in the source's insertion order (Python dicts
iterate in insertion order, which fixes the substring-match priority). -/
def DNP_RISK : List (Name × ℚ) :=
  [("out".data, 1.0),
   ("out for the season".data, 1.0),
   ("out indefinitely".data, 1.0),
   ("doubtful".data, 0.75),
   ("questionable".data, 0.40),
   ("probable".data, 0.10),
   ("available".data, 0.0),
   ("day-to-day".data, 0.30),
   ("gtd".data, 0.30),
   ("game time decision".data, 0.30)]

/-- Exact dict lookup, modelling `status_lower in DNP_RISK` followed by
`DNP_RISK[status_lower]` (the table's keys are distinct). -/
def exactRisk : List (Name × ℚ) → Name → Option ℚ
  | [], _ => none
  | (k, r) :: rest, s => if k = s then some r else exactRisk rest s

/-- Substring containment on character lists, modelling Python's
`key in status_lower`. -/
def containsSub (hay needle : Name) : Bool :=
  hay.tails.any (fun t => needle.isPrefixOf t)

/-- First table entry, in insertion order, whose key occurs as a
substring of the status (the `for key, risk in DNP_RISK.items()` loop). -/
def firstSubstringRisk : List (Name × ℚ) → Name → Option ℚ
  | [], _ => none
  | (k, r) :: rest, s =>
    if containsSub s k then some r else firstSubstringRisk rest s

/-- Embedding of `get_dnp_risk` (src/injuries.py lines 22-46). -/
def get_dnp_risk (status : Option Name) : ℚ :=
  match status with
  | none => 0.0
  | some st =>
    let status_lower := stripChars (toLowerName st)
    match exactRisk DNP_RISK status_lower with
    | some risk => risk
    | none =>
      match firstSubstringRisk DNP_RISK status_lower with
      | some risk => risk
      | none => 0.0

/-- Split a character list into whitespace-separated words (accumulator
holds the current word reversed), modelling Python `str.split()`. -/
def wordsOfAux : Name → Name → List Name
  | [], acc => if acc = [] then [] else [acc.reverse]
  | c :: rest, acc =>
    if c.isWhitespace then
      if acc = [] then wordsOfAux rest []
      else acc.reverse :: wordsOfAux rest []
    else wordsOfAux rest (c :: acc)

/-- Whitespace word split, modelling Python `str.split()`. -/
def wordsOf (l : Name) : List Name := wordsOfAux l []

/-- Join words with single spaces, modelling `" ".join(words)`.  Note
`joinWords (wordsOf s)` equals Python's `re.sub(r"\s+", " ", s).strip()`
used in the source's whitespace-collapse step. -/
def joinWords (ws : List Name) : Name := List.intercalate [' '] ws

/-- Accent stripping for one character.  Models the source's
`unicodedata.normalize("NFD", name)` followed by dropping combining
marks, as a direct table on the precomposed Latin letters; characters
outside the table are unchanged. -/
def removeAccent (c : Char) : Char :=
  match c with
  | 'á' | 'à' | 'â' | 'ä' | 'ã' | 'å' => 'a'
  | 'é' | 'è' | 'ê' | 'ë' => 'e'
  | 'í' | 'ì' | 'î' | 'ï' => 'i'
  | 'ó' | 'ò' | 'ô' | 'ö' | 'õ' => 'o'
  | 'ú' | 'ù' | 'û' | 'ü' => 'u'
  | 'ç' => 'c'
  | 'ñ' => 'n'
  | 'ý' => 'y'
  | 'Á' | 'À' | 'Â' | 'Ä' | 'Ã' | 'Å' => 'A'
  | 'É' | 'È' | 'Ê' | 'Ë' => 'E'
  | 'Í' | 'Ì' | 'Î' | 'Ï' => 'I'
  | 'Ó' | 'Ò' | 'Ô' | 'Ö' | 'Õ' => 'O'
  | 'Ú' | 'Ù' | 'Û' | 'Ü' => 'U'
  | 'Ç' => 'C'
  | 'Ñ' => 'N'
  | _ => c

/-- Embedding of `normalize_player_name` (src/injuries.py
lines 184-200): strip accents, remove periods, remove both apostrophe
variants, replace hyphens with spaces, collapse whitespace and trim,
lowercase. -/
def normalize_player_name (name : Name) : Name :=
  let n1 := name.map removeAccent
  let n2 := n1.filter (fun c => c != '.')
  let n3 := n2.filter (fun c => c != '\'' && c != '’')
  let n4 := n3.map (fun c => if c = '-' then ' ' else c)
  let n5 := joinWords (wordsOf n4)
  toLowerName n5

/-- Generational name suffixes (src/injuries.py line 203). -/
def _NAME_SUFFIXES : List Name :=
  ["jr".data, "sr".data, "ii".data, "iii".data, "iv".data, "v".data]

/-- Embedding of `_strip_suffix` (src/injuries.py lines 206-211). -/
def _strip_suffix (normalized_name : Name) : Name :=
  let parts := wordsOf normalized_name
  if decide (parts.length > 1) &&
      _NAME_SUFFIXES.contains (parts.getLast?.getD []) then
    joinWords parts.dropLast
  else normalized_name

/-- First entry of the injury dict (in insertion order) whose key
satisfies the predicate, returning its status; models the source's
`for inj_player, status in injuries.items()` loops (and, with an exact
equality predicate, the tier-1 dict lookup). -/
def findStatus : List (Name × Name) → (Name → Bool) → Option Name
  | [], _ => none
  | (k, v) :: rest, p => if p k then some v else findStatus rest p

/-- Tier-4 loose token-set match of `match_player_injury`: the
intersection of the word sets has size at least
`min 2 (number of words in the query name)`. -/
def loose_match (player_parts : List Name) (k : Name) : Bool :=
  let inj_parts := (wordsOf (normalize_player_name k)).dedup
  decide (min 2 player_parts.length ≤
    (player_parts.filter (fun w => inj_parts.contains w)).length)

/-- Embedding of `match_player_injury` (src/injuries.py lines 214-251):
four matching tiers tried strictly in order — exact, normalized,
suffix-stripped normalized, loose token-set — returning the status from
the first tier (and, within a tier, the first entry) that hits. -/
def match_player_injury (player_name : Name)
    (injuries : List (Name × Name)) : Option Name :=
  match findStatus injuries (fun k => k == player_name) with
  | some status => some status
  | none =>
    let normalized := normalize_player_name player_name
    match findStatus injuries
        (fun k => normalize_player_name k == normalized) with
    | some status => some status
    | none =>
      let stripped := _strip_suffix normalized
      match findStatus injuries
          (fun k => _strip_suffix (normalize_player_name k) == stripped) with
      | some status => some status
      | none =>
        let player_parts := (wordsOf normalized).dedup
        match findStatus injuries (loose_match player_parts) with
        | some status => some status
        | none => none

/-- Coefficient of variation as computed inside
`calculate_consistency_factor`: sample standard deviation (square root of
`Σ (x − mean)² / (n − 1)`, root modelled by `sqrtQ`) divided by the mean. -/
def sample_cv (sqrtQ : ℚ → ℚ) (scores : List ℚ) : ℚ :=
  sqrtQ ((scores.map
      (fun x => (x - scores.sum / (scores.length : ℚ)) ^ 2)).sum /
    ((scores.length : ℚ) - 1)) /
  (scores.sum / (scores.length : ℚ))

/-- One roster entry for a date, as produced by the schedule/roster
collaborator consumed by `TTFLSession.get_recommendations`
(src/session.py). -/
structure PlayerEntry where
  name : Name
  id : ℕ
  team : Name
  opponent_team_id : Option ℕ
deriving DecidableEq

/-- The per-player output record of the Recommendation Engine
(src/picker.py dataclass `PlayerRecommendation`, populated in
src/session.py lines 214-232). -/
structure PlayerRecommendation where
  name : Name
  team : Name
  player_id : ℕ
  opponent_team : Name
  avg_ttfl : ℚ
  weighted_avg : ℚ
  trend_factor : ℚ
  trend_direction : String
  consistency_factor : ℚ
  defense_factor : ℚ
  best_defender : Option Name
  defender_factor : ℚ
  adjusted_score : ℚ
  injury_status : Option Name
  dnp_risk : ℚ
  is_locked : Bool
  games_played : ℕ

/-- One day of the multi-day plan (src/session.py dataclass `DayPlan`);
dates are modelled as day offsets from today. -/
structure DayPlan where
  date : ℕ
  recommendation : PlayerRecommendation
  alternatives : List PlayerRecommendation

/-- State of a `TTFLSession` (src/session.py): the real lock set and the
injury map fetched at construction, plus the external collaborators the
engine calls — schedule/roster per date, per-player TTFL score series,
the team-defense fetch outcome (input to `get_defense_factor` as in the
C5 embedding), the best-defender collaborator
(`matchups.get_defender_factor`), the team-abbreviation table, and the
square-root model used by the consistency factor. -/
structure TTFLSession where
  locked_players : List Name
  injuries : List (Name × Name)
  players_for_date : ℕ → List PlayerEntry
  ttfl_scores : ℕ → List ℚ
  defense_data : Option (List (ℕ × OppStats))
  defender_factor_of : ℕ → ℚ × Option Name
  team_abbrev : ℕ → Name
  sqrtQ : ℚ → ℚ

/-- Python truthiness of the optional opponent team id
(`if use_defense and opponent_team_id:`): `None` and `0` are falsy. -/
def opp_truthy : Option ℕ → Bool
  | none => false
  | some t => t != 0

/-- Embedding of `TTFLSession.get_recommendations` (src/session.py
lines 111-238).  The per-player loop with `continue` skips is modelled
by `List.filterMap`; `list.sort(key=..., reverse=True)` by `mergeSort`
with the descending score order; `[:top_n]` by `List.take`. -/
def get_recommendations (S : TTFLSession) (date : ℕ) (top_n : ℕ)
    (include_risky include_locked use_form use_defense : Bool)
    (extra_locks : List Name) : List PlayerRecommendation :=
  let players := S.players_for_date date
  if players = [] then []
  else
    let all_locked := S.locked_players ++ extra_locks
    let recommendations := players.filterMap (fun player =>
      let player_name := player.name
      let is_locked := all_locked.contains player_name ||
        all_locked.any
          (fun locked => toLowerName locked == toLowerName player_name)
      if is_locked && !include_locked then none
      else
        let injury_status := match_player_injury player_name S.injuries
        let dnp_risk := get_dnp_risk injury_status
        if decide (1 ≤ dnp_risk) && !include_risky then none
        else
          let ttfl_scores := S.ttfl_scores player.id
          if ttfl_scores = [] then none
          else
            let form_analysis := analyze_form S.sqrtQ ttfl_scores
            let avg_ttfl := form_analysis.simple_avg
            if decide (avg_ttfl < 10) then none
            else
              let dfs :=
                if use_defense && opp_truthy player.opponent_team_id then
                  (get_defense_factor (player.opponent_team_id.getD 0)
                      S.defense_data,
                    (S.defender_factor_of (player.opponent_team_id.getD 0)).1,
                    (S.defender_factor_of (player.opponent_team_id.getD 0)).2)
                else (1.0, 1.0, none)
              let adjusted_score := calculate_final_score form_analysis
                dfs.1 dfs.2.1 dnp_risk use_form use_defense
              some {
                name := player_name,
                team := player.team,
                player_id := player.id,
                opponent_team :=
                  if opp_truthy player.opponent_team_id then
                    S.team_abbrev (player.opponent_team_id.getD 0)
                  else "?".data,
                avg_ttfl := avg_ttfl,
                weighted_avg := form_analysis.weighted_avg,
                trend_factor := form_analysis.trend_factor,
                trend_direction := form_analysis.trend_direction,
                consistency_factor := form_analysis.consistency_factor,
                defense_factor := dfs.1,
                best_defender := dfs.2.2,
                defender_factor := dfs.2.1,
                adjusted_score := adjusted_score,
                injury_status := injury_status,
                dnp_risk := dnp_risk,
                is_locked := is_locked,
                games_played := ttfl_scores.length })
    let sorted := recommendations.mergeSort
      (fun a b => decide (b.adjusted_score ≤ a.adjusted_score))
    sorted.take top_n

/-- Embedding of the loop body of `TTFLSession.plan_picks`
(src/session.py lines 240-289): iterate the remaining days, skip a day
whose recommendation list is empty, otherwise record the top pick plus
the next 3 runners-up and add the pick's name to the simulated locks. -/
def plan_picks_go (S : TTFLSession) : ℕ → ℕ → List Name → List DayPlan
  | 0, _, _ => []
  | days + 1, day_offset, simulated_locks =>
    let day_recommendations :=
      get_recommendations S day_offset 20 false false true true
        simulated_locks
    match day_recommendations with
    | [] => plan_picks_go S days (day_offset + 1) simulated_locks
    | top_pick :: rest =>
      { date := day_offset, recommendation := top_pick,
        alternatives := rest.take 3 } ::
        plan_picks_go S days (day_offset + 1)
          (top_pick.name :: simulated_locks)

/-- Embedding of `TTFLSession.plan_picks` (src/session.py
lines 240-289), starting from today (offset 0) with no simulated
locks. -/
def plan_picks (S : TTFLSession) (days : ℕ) : List DayPlan :=
  plan_picks_go S days 0 []

/-- A session whose schedule collaborator returns no players; used as a
concrete instance below. -/
def trivSession : TTFLSession :=
  { locked_players := [], injuries := [],
    players_for_date := fun _ => [], ttfl_scores := fun _ => [],
    defense_data := none, defender_factor_of := fun _ => (1.0, none),
    team_abbrev := fun _ => "?".data, sqrtQ := fun _ => 0 }

/- ================================================================== -/
/- Theorems                                                            -/
/- ================================================================== -/

/-- A zipped product sum over two lists equals the index sum over the
shorter length. -/
theorem zip_mul_sum (a b : List ℚ) :
    ((a.zip b).map (fun p => p.1 * p.2)).sum =
      ∑ i in Finset.range (min a.length b.length), a.getD i 0 * b.getD i 0 := by
  induction a generalizing b with
  | nil => simp
  | cons x xs ih =>
    cases b with
    | nil => simp
    | cons y ys =>
      simp only [List.zip_cons_cons, List.map_cons, List.sum_cons, ih,
        List.length_cons, Nat.succ_min_succ]
      rw [Finset.sum_range_succ']
      simp [add_comm]

/-- Reading inside a prefix below the cut agrees with the original list. -/
theorem getD_take_of_lt (l : List ℚ) (k i : ℕ) (h : i < k) :
    (l.take k).getD i 0 = l.getD i 0 := by
  by_cases hi : i < l.length
  · have hlen : i < (l.take k).length := by
      rw [List.length_take]
      exact lt_min h hi
    rw [List.getD_eq_getElem _ _ hlen, List.getD_eq_getElem _ _ hi,
      List.getElem_take]
  · push_neg at hi
    rw [List.getD_eq_default _ _ (le_trans (by rw [List.length_take]; exact min_le_right _ _) hi),
      List.getD_eq_default _ _ hi]

/-- Reading inside a mapped division agrees with dividing the read value. -/
theorem getD_map_div (l : List ℚ) (s : ℚ) (i : ℕ) (h : i < l.length) :
    (l.map (fun w => w / s)).getD i 0 = l.getD i 0 / s := by
  have h' : i < (l.map (fun w => w / s)).length := by simpa using h
  rw [List.getD_eq_getElem _ _ h', List.getD_eq_getElem _ _ h,
    List.getElem_map]

/-- C4: `calculate_weighted_average` equals the sum of the first
`min(len, 10)` scores weighted by the corresponding prefix of
`GAME_WEIGHTS` renormalised to sum to 1; a single-element series yields
exactly that element and the empty series yields 0. -/
theorem calculate_weighted_average_formula :
    calculate_weighted_average [] = 0 ∧
    (∀ x : ℚ, calculate_weighted_average [x] = x) ∧
    (∀ scores : List ℚ, scores ≠ [] →
      calculate_weighted_average scores =
        ∑ i in Finset.range (min scores.length 10),
          scores.getD i 0 *
            (GAME_WEIGHTS.getD i 0 /
              (GAME_WEIGHTS.take (min scores.length 10)).sum)) := by
  refine ⟨by norm_num [calculate_weighted_average], ?_, ?_⟩
  · intro x
    norm_num [calculate_weighted_average, GAME_WEIGHTS]
  · intro scores hne
    have hGW : GAME_WEIGHTS.length = 10 := rfl
    simp only [calculate_weighted_average, if_neg hne]
    rw [hGW, zip_mul_sum]
    have hm10 : min scores.length 10 ≤ 10 := min_le_right _ _
    have hmlen : min scores.length 10 ≤ scores.length := min_le_left _ _
    have h1 : (scores.take (min scores.length 10)).length = min scores.length 10 := by
      rw [List.length_take]
      exact min_eq_left hmlen
    have h2 : ((GAME_WEIGHTS.take (min scores.length 10)).map
        (fun w => w / (GAME_WEIGHTS.take (min scores.length 10)).sum)).length =
        min scores.length 10 := by
      rw [List.length_map, List.length_take, hGW]
      exact min_eq_left hm10
    rw [h1, h2, min_self]
    refine Finset.sum_congr rfl ?_
    intro i hi
    have hilt : i < min scores.length 10 := Finset.mem_range.mp hi
    have hiGW : i < (GAME_WEIGHTS.take (min scores.length 10)).length := by
      rw [List.length_take, hGW, min_eq_left hm10]
      exact hilt
    rw [getD_take_of_lt _ _ _ hilt, getD_map_div _ _ _ hiGW,
      getD_take_of_lt _ _ _ hilt]

/-- Witness for C4's conditional part at the concrete series `[3, 5]`. -/
theorem calculate_weighted_average_formula_witness :
    calculate_weighted_average [3, 5] =
      ∑ i in Finset.range (min ([3, 5] : List ℚ).length 10),
        ([3, 5] : List ℚ).getD i 0 *
          (GAME_WEIGHTS.getD i 0 /
            (GAME_WEIGHTS.take (min ([3, 5] : List ℚ).length 10)).sum) :=
  calculate_weighted_average_formula.2.2 [3, 5] (by simp)

/-- C10: the weighted average depends only on the first 10 elements:
appending any extra scores to a series of length at least 10 leaves
`calculate_weighted_average` unchanged. -/
theorem calculate_weighted_average_ignores_tail (scores extra : List ℚ)
    (h : 10 ≤ scores.length) :
    calculate_weighted_average (scores ++ extra) =
      calculate_weighted_average scores := by
  have h1 : scores ≠ [] := by
    intro e
    rw [e] at h
    simp at h
  have h2 : scores ++ extra ≠ [] := by
    intro e
    exact h1 (List.append_eq_nil.mp e).1
  have hGW : GAME_WEIGHTS.length = 10 := rfl
  simp only [calculate_weighted_average, if_neg h1, if_neg h2]
  have hm1 : min (scores ++ extra).length GAME_WEIGHTS.length = 10 := by
    rw [hGW, List.length_append]
    omega
  have hm2 : min scores.length GAME_WEIGHTS.length = 10 := by
    rw [hGW]
    omega
  rw [hm1, hm2, List.take_append_of_le_length h]

/-- Witness for C10 at a concrete 10-element series with one extra score. -/
theorem calculate_weighted_average_ignores_tail_witness :
    calculate_weighted_average
        ([1, 2, 3, 4, 5, 6, 7, 8, 9, 10] ++ [99] : List ℚ) =
      calculate_weighted_average [1, 2, 3, 4, 5, 6, 7, 8, 9, 10] :=
  calculate_weighted_average_ignores_tail _ _ (by simp)

/-- A list sum is the sum of its `getD` reads over the index range. -/
theorem list_sum_eq_range_getD (l : List ℚ) :
    l.sum = ∑ i in Finset.range l.length, l.getD i 0 := by
  induction l with
  | nil => simp
  | cons a t ih =>
    simp only [List.sum_cons, List.length_cons, Finset.sum_range_succ',
      List.getD_cons_succ, List.getD_cons_zero]
    rw [← ih]
    ring

/-- The least-squares numerator `Σ (i − x̄)(y i − ȳ)` over indices
`0, …, n−1` is strictly positive for a strictly increasing sequence. -/
theorem trend_numerator_pos (y : ℕ → ℚ) (n : ℕ) (hn : 3 ≤ n)
    (hmono : ∀ i j, i < j → j < n → y i < y j) :
    0 < ∑ i in Finset.range n,
      ((i : ℚ) - ((n : ℚ) - 1) / 2) *
        (y i - (∑ j in Finset.range n, y j) / (n : ℚ)) := by
  have hn3 : (3 : ℚ) ≤ (n : ℚ) := by exact_mod_cast hn
  have hrefl : ∑ i in Finset.range n,
      (((n - 1 - i : ℕ) : ℚ) - ((n : ℚ) - 1) / 2) *
        (y (n - 1 - i) - (∑ j in Finset.range n, y j) / (n : ℚ)) =
      ∑ i in Finset.range n,
      ((i : ℚ) - ((n : ℚ) - 1) / 2) *
        (y i - (∑ j in Finset.range n, y j) / (n : ℚ)) :=
    Finset.sum_range_reflect
      (fun i => ((i : ℚ) - ((n : ℚ) - 1) / 2) *
        (y i - (∑ j in Finset.range n, y j) / (n : ℚ))) n
  have hdouble : 2 * (∑ i in Finset.range n,
      ((i : ℚ) - ((n : ℚ) - 1) / 2) *
        (y i - (∑ j in Finset.range n, y j) / (n : ℚ))) =
      ∑ i in Finset.range n,
        (((i : ℚ) - ((n : ℚ) - 1) / 2) *
          (y i - (∑ j in Finset.range n, y j) / (n : ℚ)) +
        (((n - 1 - i : ℕ) : ℚ) - ((n : ℚ) - 1) / 2) *
          (y (n - 1 - i) - (∑ j in Finset.range n, y j) / (n : ℚ))) := by
    rw [Finset.sum_add_distrib, hrefl]
    ring
  have hcast : ∀ i, i < n → ((n - 1 - i : ℕ) : ℚ) = (n : ℚ) - 1 - (i : ℚ) := by
    intro i hi
    have he : n - 1 - i = n - (1 + i) := by omega
    have h1 : 1 + i ≤ n := by omega
    rw [he, Nat.cast_sub h1]
    push_cast
    ring
  have hterm : ∀ i ∈ Finset.range n,
      ((i : ℚ) - ((n : ℚ) - 1) / 2) *
        (y i - (∑ j in Finset.range n, y j) / (n : ℚ)) +
      (((n - 1 - i : ℕ) : ℚ) - ((n : ℚ) - 1) / 2) *
        (y (n - 1 - i) - (∑ j in Finset.range n, y j) / (n : ℚ)) =
      ((i : ℚ) - ((n : ℚ) - 1) / 2) * (y i - y (n - 1 - i)) := by
    intro i hi
    rw [hcast i (Finset.mem_range.mp hi)]
    ring
  have hnonneg : ∀ i ∈ Finset.range n,
      0 ≤ ((i : ℚ) - ((n : ℚ) - 1) / 2) *
        (y i - (∑ j in Finset.range n, y j) / (n : ℚ)) +
      (((n - 1 - i : ℕ) : ℚ) - ((n : ℚ) - 1) / 2) *
        (y (n - 1 - i) - (∑ j in Finset.range n, y j) / (n : ℚ)) := by
    intro i hi
    rw [hterm i hi]
    have hi' : i < n := Finset.mem_range.mp hi
    rcases lt_trichotomy i (n - 1 - i) with hlt | heq | hgt
    · have h2i : 2 * i + 1 < n := by omega
      have h2i' : (2 * (i : ℚ) + 1 : ℚ) < (n : ℚ) := by exact_mod_cast h2i
      have hxm : (i : ℚ) - ((n : ℚ) - 1) / 2 < 0 := by linarith
      have hyy : y i < y (n - 1 - i) := hmono i (n - 1 - i) hlt (by omega)
      have := mul_pos_of_neg_of_neg hxm (by linarith : y i - y (n - 1 - i) < 0)
      linarith
    · rw [← heq, sub_self, mul_zero]
    · have h2i : n ≤ 2 * i := by omega
      have h2i' : (n : ℚ) ≤ 2 * (i : ℚ) := by exact_mod_cast h2i
      have hxm : 0 < (i : ℚ) - ((n : ℚ) - 1) / 2 := by linarith
      have hyy : y (n - 1 - i) < y i := hmono (n - 1 - i) i hgt hi'
      have := mul_pos hxm (by linarith : 0 < y i - y (n - 1 - i))
      linarith
  have hzero_mem : (0 : ℕ) ∈ Finset.range n := Finset.mem_range.mpr (by omega)
  have hpos0 : 0 < (((0 : ℕ) : ℚ) - ((n : ℚ) - 1) / 2) *
        (y 0 - (∑ j in Finset.range n, y j) / (n : ℚ)) +
      (((n - 1 - 0 : ℕ) : ℚ) - ((n : ℚ) - 1) / 2) *
        (y (n - 1 - 0) - (∑ j in Finset.range n, y j) / (n : ℚ)) := by
    rw [hterm 0 hzero_mem]
    have hxm : ((0 : ℕ) : ℚ) - ((n : ℚ) - 1) / 2 < 0 := by
      push_cast
      linarith
    have hyy : y 0 < y (n - 1 - 0) := hmono 0 (n - 1 - 0) (by omega) (by omega)
    have := mul_pos_of_neg_of_neg hxm (by linarith : y 0 - y (n - 1 - 0) < 0)
    linarith
  have hsum : 0 < ∑ i in Finset.range n,
      (((i : ℚ) - ((n : ℚ) - 1) / 2) *
        (y i - (∑ j in Finset.range n, y j) / (n : ℚ)) +
      (((n - 1 - i : ℕ) : ℚ) - ((n : ℚ) - 1) / 2) *
        (y (n - 1 - i) - (∑ j in Finset.range n, y j) / (n : ℚ))) :=
    Finset.sum_pos' hnonneg ⟨0, hzero_mem, hpos0⟩
  linarith

/-- The least-squares numerator is strictly negative for a strictly
decreasing sequence. -/
theorem trend_numerator_neg (y : ℕ → ℚ) (n : ℕ) (hn : 3 ≤ n)
    (hmono : ∀ i j, i < j → j < n → y j < y i) :
    (∑ i in Finset.range n,
      ((i : ℚ) - ((n : ℚ) - 1) / 2) *
        (y i - (∑ j in Finset.range n, y j) / (n : ℚ))) < 0 := by
  have hneg := trend_numerator_pos (fun i => -(y i)) n hn
    (fun i j hij hj => neg_lt_neg (hmono i j hij hj))
  have htrans : ∑ i in Finset.range n,
      ((i : ℚ) - ((n : ℚ) - 1) / 2) *
        (-(y i) - (∑ j in Finset.range n, -(y j)) / (n : ℚ)) =
      - ∑ i in Finset.range n,
      ((i : ℚ) - ((n : ℚ) - 1) / 2) *
        (y i - (∑ j in Finset.range n, y j) / (n : ℚ)) := by
    have hinner : (∑ j in Finset.range n, -(y j)) =
        -(∑ j in Finset.range n, y j) := Finset.sum_neg_distrib
    calc ∑ i in Finset.range n,
        ((i : ℚ) - ((n : ℚ) - 1) / 2) *
          (-(y i) - (∑ j in Finset.range n, -(y j)) / (n : ℚ))
        = ∑ i in Finset.range n,
          -(((i : ℚ) - ((n : ℚ) - 1) / 2) *
            (y i - (∑ j in Finset.range n, y j) / (n : ℚ))) := by
          rw [hinner]
          refine Finset.sum_congr rfl ?_
          intro i _
          ring
      _ = - ∑ i in Finset.range n,
          ((i : ℚ) - ((n : ℚ) - 1) / 2) *
            (y i - (∑ j in Finset.range n, y j) / (n : ℚ)) :=
        Finset.sum_neg_distrib
  rw [htrans] at hneg
  linarith

/-- Pairwise-increasing lists are increasing under indexed reads. -/
theorem pairwise_getD_mono (l : List ℚ) (h : List.Pairwise (· < ·) l) :
    ∀ i j, i < j → j < l.length → l.getD i 0 < l.getD j 0 := by
  intro i j hij hj
  have hi : i < l.length := lt_trans hij hj
  rw [List.getD_eq_getElem _ _ hi, List.getD_eq_getElem _ _ hj]
  have := List.pairwise_iff_get.mp h ⟨i, hi⟩ ⟨j, hj⟩ hij
  simpa using this

/-- Unfolding of `calculate_trend_factor` on its main branch, with the
regression quantities abstracted as parameters. -/
theorem calculate_trend_factor_main (scores : List ℚ)
    (h3 : ¬scores.length < 3) (num den ym : ℚ) (hden : den ≠ 0) (hym : ym ≠ 0)
    (hnum : num = ∑ i in Finset.range scores.reverse.length,
      (((i : ℚ) - ((scores.reverse.length : ℚ) - 1) / 2) *
        (scores.reverse.getD i 0 - ym)))
    (hden_eq : den = ∑ i in Finset.range scores.reverse.length,
      ((i : ℚ) - ((scores.reverse.length : ℚ) - 1) / 2) ^ 2)
    (hym_eq : ym = scores.reverse.sum / (scores.reverse.length : ℚ)) :
    calculate_trend_factor scores =
      (1.0 + max (-MAX_TREND_ADJUSTMENT)
          (min MAX_TREND_ADJUSTMENT
            (num / den / ym * (scores.reverse.length : ℚ))),
        if max (-MAX_TREND_ADJUSTMENT)
            (min MAX_TREND_ADJUSTMENT
              (num / den / ym * (scores.reverse.length : ℚ))) > 0.05 then "hot"
        else if max (-MAX_TREND_ADJUSTMENT)
            (min MAX_TREND_ADJUSTMENT
              (num / den / ym * (scores.reverse.length : ℚ))) < -0.05 then "cold"
        else "stable") := by
  subst hym_eq
  subst hnum
  subst hden_eq
  simp only [calculate_trend_factor, if_neg h3]
  rw [if_neg hden, if_neg hym]

/-- Clamping a positive raw adjustment to ±`MAX_TREND_ADJUSTMENT` gives a
value in (0, 0.2]. -/
theorem clamp_pos_facts (r : ℚ) (hr : 0 < r) :
    0 < max (-MAX_TREND_ADJUSTMENT) (min MAX_TREND_ADJUSTMENT r) ∧
    max (-MAX_TREND_ADJUSTMENT) (min MAX_TREND_ADJUSTMENT r) ≤ 0.2 := by
  have hM : MAX_TREND_ADJUSTMENT = 0.2 := by norm_num [MAX_TREND_ADJUSTMENT]
  rw [hM]
  constructor
  · exact lt_of_lt_of_le (lt_min (by norm_num) hr) (le_max_right _ _)
  · exact max_le (by norm_num) (min_le_left _ _)

/-- Clamping a negative raw adjustment to ±`MAX_TREND_ADJUSTMENT` gives a
value in [−0.2, 0). -/
theorem clamp_neg_facts (r : ℚ) (hr : r < 0) :
    -0.2 ≤ max (-MAX_TREND_ADJUSTMENT) (min MAX_TREND_ADJUSTMENT r) ∧
    max (-MAX_TREND_ADJUSTMENT) (min MAX_TREND_ADJUSTMENT r) < 0 := by
  have hM : MAX_TREND_ADJUSTMENT = 0.2 := by norm_num [MAX_TREND_ADJUSTMENT]
  rw [hM]
  constructor
  · exact le_max_left _ _
  · exact max_lt (by norm_num) (lt_of_le_of_lt (min_le_right _ _) hr)

/-- C3 (amended): for a series of length at least 3 with positive sum
that is strictly increasing toward the most recent game (strictly
decreasing in the given most-recent-first order), the trend multiplier is
strictly greater than 1 and at most 1.2, and the label is `"hot"` or
`"stable"` (it is `"hot"` only when the capped adjustment exceeds 0.05);
symmetrically, for a strictly decreasing series (toward the most recent
game) with positive sum, the multiplier is at least 0.8 and strictly less
than 1, and the label is `"cold"` or `"stable"`. -/
theorem calculate_trend_factor_monotone (scores : List ℚ)
    (h3 : 3 ≤ scores.length) (hpos : 0 < scores.sum) :
    (List.Pairwise (· > ·) scores →
      1 < (calculate_trend_factor scores).1 ∧
      (calculate_trend_factor scores).1 ≤ 1.2 ∧
      ((calculate_trend_factor scores).2 = "hot" ∨
        (calculate_trend_factor scores).2 = "stable")) ∧
    (List.Pairwise (· < ·) scores →
      0.8 ≤ (calculate_trend_factor scores).1 ∧
      (calculate_trend_factor scores).1 < 1 ∧
      ((calculate_trend_factor scores).2 = "cold" ∨
        (calculate_trend_factor scores).2 = "stable")) := by
  have hlen : scores.reverse.length = scores.length := List.length_reverse scores
  have h3' : ¬scores.length < 3 := not_lt.mpr h3
  have hn3 : 3 ≤ scores.reverse.length := by rw [hlen]; exact h3
  have hn3Q : (3 : ℚ) ≤ (scores.reverse.length : ℚ) := by exact_mod_cast hn3
  have hnQ : (0 : ℚ) < (scores.reverse.length : ℚ) := by linarith
  have hsum : scores.reverse.sum = scores.sum := List.sum_reverse scores
  have hym_pos : 0 < scores.reverse.sum / (scores.reverse.length : ℚ) := by
    rw [hsum]
    exact div_pos hpos hnQ
  have hym_ne : scores.reverse.sum / (scores.reverse.length : ℚ) ≠ 0 :=
    ne_of_gt hym_pos
  have hden_pos : 0 < ∑ i in Finset.range scores.reverse.length,
      ((i : ℚ) - ((scores.reverse.length : ℚ) - 1) / 2) ^ 2 := by
    refine Finset.sum_pos' (fun i _ => sq_nonneg _)
      ⟨0, Finset.mem_range.mpr (by omega), ?_⟩
    refine pow_two_pos_of_ne_zero ?_
    push_cast
    intro hc
    have : ((scores.reverse.length : ℚ) - 1) / 2 = 0 := by linarith
    have : (scores.reverse.length : ℚ) = 1 := by
      field_simp at this
      linarith
    linarith
  have hden_ne : (∑ i in Finset.range scores.reverse.length,
      ((i : ℚ) - ((scores.reverse.length : ℚ) - 1) / 2) ^ 2) ≠ 0 :=
    ne_of_gt hden_pos
  have hmean_rw : (∑ j in Finset.range scores.reverse.length,
      scores.reverse.getD j 0) = scores.reverse.sum :=
    (list_sum_eq_range_getD scores.reverse).symm
  have heq := calculate_trend_factor_main scores h3'
    (∑ i in Finset.range scores.reverse.length,
      (((i : ℚ) - ((scores.reverse.length : ℚ) - 1) / 2) *
        (scores.reverse.getD i 0 -
          scores.reverse.sum / (scores.reverse.length : ℚ))))
    (∑ i in Finset.range scores.reverse.length,
      ((i : ℚ) - ((scores.reverse.length : ℚ) - 1) / 2) ^ 2)
    (scores.reverse.sum / (scores.reverse.length : ℚ))
    hden_ne hym_ne rfl rfl rfl
  set C := max (-MAX_TREND_ADJUSTMENT)
    (min MAX_TREND_ADJUSTMENT
      ((∑ i in Finset.range scores.reverse.length,
        (((i : ℚ) - ((scores.reverse.length : ℚ) - 1) / 2) *
          (scores.reverse.getD i 0 -
            scores.reverse.sum / (scores.reverse.length : ℚ)))) /
      (∑ i in Finset.range scores.reverse.length,
        ((i : ℚ) - ((scores.reverse.length : ℚ) - 1) / 2) ^ 2) /
      (scores.reverse.sum / (scores.reverse.length : ℚ)) *
      (scores.reverse.length : ℚ))) with hC
  have h1 : (calculate_trend_factor scores).1 = 1.0 + C := by rw [heq]
  have h2 : (calculate_trend_factor scores).2 =
      (if C > 0.05 then "hot" else if C < -0.05 then "cold"
        else "stable") := by rw [heq]
  constructor
  · intro hp
    have hchron : List.Pairwise (· < ·) scores.reverse := by
      rw [List.pairwise_reverse]
      exact hp
    have hmono := pairwise_getD_mono scores.reverse hchron
    have hnum_pos : 0 < ∑ i in Finset.range scores.reverse.length,
        (((i : ℚ) - ((scores.reverse.length : ℚ) - 1) / 2) *
          (scores.reverse.getD i 0 -
            scores.reverse.sum / (scores.reverse.length : ℚ))) := by
      have := trend_numerator_pos (fun i => scores.reverse.getD i 0)
        scores.reverse.length hn3 hmono
      rw [hmean_rw] at this
      exact this
    have hraw_pos : 0 <
        (∑ i in Finset.range scores.reverse.length,
          (((i : ℚ) - ((scores.reverse.length : ℚ) - 1) / 2) *
            (scores.reverse.getD i 0 -
              scores.reverse.sum / (scores.reverse.length : ℚ)))) /
        (∑ i in Finset.range scores.reverse.length,
          ((i : ℚ) - ((scores.reverse.length : ℚ) - 1) / 2) ^ 2) /
        (scores.reverse.sum / (scores.reverse.length : ℚ)) *
        (scores.reverse.length : ℚ) :=
      mul_pos (div_pos (div_pos hnum_pos hden_pos) hym_pos) hnQ
    have hclamp := clamp_pos_facts _ hraw_pos
    rw [← hC] at hclamp
    obtain ⟨hc0, hc2⟩ := hclamp
    refine ⟨?_, ?_, ?_⟩
    · rw [h1]
      linarith
    · rw [h1]
      linarith
    · rw [h2]
      by_cases h05 : C > 0.05
      · left
        rw [if_pos h05]
      · right
        rw [if_neg h05, if_neg (by push_neg; linarith)]
  · intro hp
    have hchron : List.Pairwise (· > ·) scores.reverse := by
      rw [List.pairwise_reverse]
      exact hp
    have hmono : ∀ i j, i < j → j < scores.reverse.length →
        scores.reverse.getD j 0 < scores.reverse.getD i 0 := by
      intro i j hij hj
      have hi : i < scores.reverse.length := lt_trans hij hj
      rw [List.getD_eq_getElem _ _ hi, List.getD_eq_getElem _ _ hj]
      have := List.pairwise_iff_get.mp hchron ⟨i, hi⟩ ⟨j, hj⟩ hij
      simpa using this
    have hnum_neg : (∑ i in Finset.range scores.reverse.length,
        (((i : ℚ) - ((scores.reverse.length : ℚ) - 1) / 2) *
          (scores.reverse.getD i 0 -
            scores.reverse.sum / (scores.reverse.length : ℚ)))) < 0 := by
      have := trend_numerator_neg (fun i => scores.reverse.getD i 0)
        scores.reverse.length hn3 hmono
      rw [hmean_rw] at this
      exact this
    have hraw_neg :
        (∑ i in Finset.range scores.reverse.length,
          (((i : ℚ) - ((scores.reverse.length : ℚ) - 1) / 2) *
            (scores.reverse.getD i 0 -
              scores.reverse.sum / (scores.reverse.length : ℚ)))) /
        (∑ i in Finset.range scores.reverse.length,
          ((i : ℚ) - ((scores.reverse.length : ℚ) - 1) / 2) ^ 2) /
        (scores.reverse.sum / (scores.reverse.length : ℚ)) *
        (scores.reverse.length : ℚ) < 0 :=
      mul_neg_of_neg_of_pos
        (div_neg_of_neg_of_pos (div_neg_of_neg_of_pos hnum_neg hden_pos)
          hym_pos) hnQ
    have hclamp := clamp_neg_facts _ hraw_neg
    rw [← hC] at hclamp
    obtain ⟨hc0, hc2⟩ := hclamp
    refine ⟨?_, ?_, ?_⟩
    · rw [h1]
      linarith
    · rw [h1]
      linarith
    · rw [h2]
      rw [if_neg (by push_neg; linarith)]
      by_cases h05 : C < -0.05
      · left
        rw [if_pos h05]
      · right
        rw [if_neg h05]

/-- Every recommendation emitted with `include_locked = false` names a
player outside the caller-supplied extra lock set: the lock filter skips
any player whose name is (exactly) in the combined lock set. -/
theorem get_recommendations_not_locked (S : TTFLSession) (date top_n : ℕ)
    (include_risky use_form use_defense : Bool) (extra_locks : List Name)
    (r : PlayerRecommendation)
    (hr : r ∈ get_recommendations S date top_n include_risky false
      use_form use_defense extra_locks) :
    r.name ∉ extra_locks := by
  simp only [get_recommendations] at hr
  by_cases hp : S.players_for_date date = []
  · rw [if_pos hp] at hr
    simp at hr
  · rw [if_neg hp] at hr
    have hr1 := List.mem_of_mem_take hr
    have hr2 := List.mem_mergeSort.mp hr1
    obtain ⟨player, hpmem, hf⟩ := List.mem_filterMap.mp hr2
    intro hmem
    by_cases h1 : (((S.locked_players ++ extra_locks).contains player.name ||
        (S.locked_players ++ extra_locks).any
          (fun locked => toLowerName locked == toLowerName player.name)) &&
        !false) = true
    · rw [if_pos h1] at hf
      simp at hf
    · rw [if_neg h1] at hf
      have hcontains : (S.locked_players ++ extra_locks).contains
          player.name = false := by
        cases hc : (S.locked_players ++ extra_locks).contains player.name
        · rfl
        · exact absurd (by rw [hc]; simp) h1
      split at hf
      · simp at hf
      · split at hf
        · simp at hf
        · split at hf
          · simp at hf
          · rw [Option.some.injEq] at hf
            subst hf
            have hmem' : player.name ∈ S.locked_players ++ extra_locks :=
              List.mem_append.mpr (Or.inr hmem)
            have helem : (S.locked_players ++ extra_locks).elem
                player.name = true := List.elem_iff.mpr hmem'
            rw [show (S.locked_players ++ extra_locks).contains player.name =
              (S.locked_players ++ extra_locks).elem player.name from rfl,
              helem] at hcontains
            exact absurd hcontains (by simp)

/-- No entry of the produced plan picks a name from the lock set the
planner started with. -/
theorem plan_picks_go_locks (S : TTFLSession) :
    ∀ (days day : ℕ) (locks : List Name) (pl : DayPlan),
      pl ∈ plan_picks_go S days day locks →
      pl.recommendation.name ∉ locks := by
  intro days
  induction days with
  | zero =>
    intro day locks pl h
    simp [plan_picks_go] at h
  | succ d ih =>
    intro day locks pl h
    simp only [plan_picks_go] at h
    cases hrec : get_recommendations S day 20 false false true true locks with
    | nil =>
      rw [hrec] at h
      exact ih (day + 1) locks pl h
    | cons top rest =>
      rw [hrec] at h
      rcases List.mem_cons.mp h with he | hm
      · subst he
        exact get_recommendations_not_locked S day 20 false true true locks
          top (by rw [hrec]; exact List.mem_cons_self _ _)
      · intro hmem
        exact ih (day + 1) (top.name :: locks) pl hm
          (List.mem_cons_of_mem _ hmem)

/-- The produced plan never repeats a pick name. -/
theorem plan_picks_go_pairwise (S : TTFLSession) :
    ∀ (days day : ℕ) (locks : List Name),
      (plan_picks_go S days day locks).Pairwise
        (fun a b => a.recommendation.name ≠ b.recommendation.name) := by
  intro days
  induction days with
  | zero =>
    intro day locks
    simp [plan_picks_go]
  | succ d ih =>
    intro day locks
    simp only [plan_picks_go]
    cases hrec : get_recommendations S day 20 false false true true locks with
    | nil => exact ih (day + 1) locks
    | cons top rest =>
      refine List.Pairwise.cons ?_ (ih (day + 1) (top.name :: locks))
      intro pl hpl he
      have hnot := plan_picks_go_locks S d (day + 1) (top.name :: locks) pl hpl
      exact hnot (by rw [← he]; exact List.mem_cons_self _ _)

/-- The plan has at most one entry per requested day: skipped days make
it shorter, never longer. -/
theorem plan_picks_go_length (S : TTFLSession) :
    ∀ (days day : ℕ) (locks : List Name),
      (plan_picks_go S days day locks).length ≤ days := by
  intro days
  induction days with
  | zero =>
    intro day locks
    simp [plan_picks_go]
  | succ d ih =>
    intro day locks
    simp only [plan_picks_go]
    cases hrec : get_recommendations S day 20 false false true true locks with
    | nil => exact le_trans (ih (day + 1) locks) (Nat.le_succ d)
    | cons top rest =>
      simp only [List.length_cons]
      exact Nat.succ_le_succ (ih (day + 1) (top.name :: locks))

/-- Every produced day records the head of that day's (nonempty)
recommendation list as the pick and the next 3 entries as
alternatives. -/
theorem plan_picks_go_shape (S : TTFLSession) :
    ∀ (days day : ℕ) (locks : List Name) (pl : DayPlan),
      pl ∈ plan_picks_go S days day locks →
      ∃ (locks' : List Name) (top : PlayerRecommendation)
        (rest : List PlayerRecommendation),
        get_recommendations S pl.date 20 false false true true locks' =
          top :: rest ∧
        pl.recommendation = top ∧ pl.alternatives = rest.take 3 := by
  intro days
  induction days with
  | zero =>
    intro day locks pl h
    simp [plan_picks_go] at h
  | succ d ih =>
    intro day locks pl h
    simp only [plan_picks_go] at h
    cases hrec : get_recommendations S day 20 false false true true locks with
    | nil =>
      rw [hrec] at h
      exact ih (day + 1) locks pl h
    | cons top rest =>
      rw [hrec] at h
      rcases List.mem_cons.mp h with he | hm
      · subst he
        exact ⟨locks, top, rest, hrec, rfl, rfl⟩
      · exact ih (day + 1) (top.name :: locks) pl hm

/-- C9: for every session state and planning horizon, the Multi-Day
Planner never records the same player name as the pick of two different
produced days (each pick is added to the simulated locks before later
days run, and the lock filter excludes simulated-locked players from
later recommendations); a day with an empty recommendation list is
skipped, so the plan's length never exceeds the horizon; and every
produced day records the top-ranked recommendation of its date as the
pick with the next 3 runners-up as alternatives. -/
theorem plan_picks_spec (S : TTFLSession) (days : ℕ) :
    (plan_picks S days).Pairwise
      (fun a b => a.recommendation.name ≠ b.recommendation.name) ∧
    (plan_picks S days).length ≤ days ∧
    (∀ pl ∈ plan_picks S days,
      ∃ (locks' : List Name) (top : PlayerRecommendation)
        (rest : List PlayerRecommendation),
        get_recommendations S pl.date 20 false false true true locks' =
          top :: rest ∧
        pl.recommendation = top ∧ pl.alternatives = rest.take 3) :=
  ⟨plan_picks_go_pairwise S days 0 [],
   plan_picks_go_length S days 0 [],
   fun pl hpl => plan_picks_go_shape S days 0 [] pl hpl⟩

/-- Witness for C9 at a concrete session (no scheduled players) and a
2-day horizon. -/
theorem plan_picks_spec_witness :
    (plan_picks trivSession 2).Pairwise
      (fun a b => a.recommendation.name ≠ b.recommendation.name) ∧
    (plan_picks trivSession 2).length ≤ 2 :=
  ⟨(plan_picks_spec trivSession 2).1, (plan_picks_spec trivSession 2).2.1⟩

/-- A successful exact lookup returns one of the stored risks. -/
theorem exactRisk_mem (l : List (Name × ℚ)) (s : Name) (r : ℚ)
    (h : exactRisk l s = some r) : r ∈ l.map Prod.snd := by
  induction l with
  | nil => simp [exactRisk] at h
  | cons p rest ih =>
    obtain ⟨k, v⟩ := p
    simp only [exactRisk] at h
    by_cases hk : k = s
    · rw [if_pos hk] at h
      have : v = r := by injection h
      subst this
      exact List.mem_cons_self _ _
    · rw [if_neg hk] at h
      exact List.mem_cons_of_mem _ (ih h)

/-- A successful substring lookup returns one of the stored risks. -/
theorem firstSubstringRisk_mem (l : List (Name × ℚ)) (s : Name) (r : ℚ)
    (h : firstSubstringRisk l s = some r) : r ∈ l.map Prod.snd := by
  induction l with
  | nil => simp [firstSubstringRisk] at h
  | cons p rest ih =>
    obtain ⟨k, v⟩ := p
    simp only [firstSubstringRisk] at h
    by_cases hk : containsSub s k
    · rw [if_pos hk] at h
      have : v = r := by injection h
      subst this
      exact List.mem_cons_self _ _
    · rw [if_neg hk] at h
      exact List.mem_cons_of_mem _ (ih h)

/-- C6: `get_dnp_risk` lowercases and trims its input, returns the table
value on an exact key match, otherwise the value of the first table key
in the source's fixed insertion order occurring as a substring, and 0 for
a null or unmatched status; the result is always within [0, 1].  The
exact-match values on all ten keys, a substring match
(`"Ruled out (knee)"` → "out" → 1.0), and the deterministic substring
priority (`"Doubtful, GTD"` matches "doubtful" before "gtd") are checked
concretely. -/
theorem get_dnp_risk_spec :
    (∀ st : Option Name, 0 ≤ get_dnp_risk st ∧ get_dnp_risk st ≤ 1) ∧
    get_dnp_risk none = 0 ∧
    (∀ st : Name, get_dnp_risk (some st) =
      (match exactRisk DNP_RISK (stripChars (toLowerName st)) with
       | some risk => risk
       | none =>
         match firstSubstringRisk DNP_RISK (stripChars (toLowerName st)) with
         | some risk => risk
         | none => 0.0)) ∧
    get_dnp_risk (some "Out".data) = 1.0 ∧
    get_dnp_risk (some "Out For The Season".data) = 1.0 ∧
    get_dnp_risk (some "Out Indefinitely".data) = 1.0 ∧
    get_dnp_risk (some "Doubtful".data) = 0.75 ∧
    get_dnp_risk (some "Questionable".data) = 0.40 ∧
    get_dnp_risk (some "Day-To-Day".data) = 0.30 ∧
    get_dnp_risk (some "GTD".data) = 0.30 ∧
    get_dnp_risk (some "Game Time Decision".data) = 0.30 ∧
    get_dnp_risk (some "Probable".data) = 0.10 ∧
    get_dnp_risk (some "Available".data) = 0.0 ∧
    get_dnp_risk (some "Ruled out (knee)".data) = 1.0 ∧
    get_dnp_risk (some "Doubtful, GTD".data) = 0.75 ∧
    get_dnp_risk (some "healthy".data) = 0.0 := by
  have htable : ∀ v ∈ DNP_RISK.map Prod.snd, 0 ≤ v ∧ v ≤ 1 := by
    intro v hv
    fin_cases hv <;> constructor <;> norm_num
  refine ⟨?_, by norm_num [get_dnp_risk], fun st => rfl,
    rfl, rfl, rfl, rfl, rfl, rfl, rfl, rfl, rfl, rfl, rfl, rfl, rfl⟩
  intro st
  cases st with
  | none =>
    constructor <;> norm_num [get_dnp_risk]
  | some s =>
    simp only [get_dnp_risk]
    cases hex : exactRisk DNP_RISK (stripChars (toLowerName s)) with
    | some r =>
      exact htable r (exactRisk_mem _ _ _ hex)
    | none =>
      cases hsub : firstSubstringRisk DNP_RISK (stripChars (toLowerName s)) with
      | some r =>
        exact htable r (firstSubstringRisk_mem _ _ _ hsub)
      | none =>
        constructor <;> norm_num

/-- C8: `match_player_injury` tries its four matching tiers strictly in
order — exact, normalized, suffix-stripped, loose token-set — and
returns the status from the first tier that hits; no hit across all four
tiers returns `none`.  Concretely: an exact match wins over a normalized
match when both exist in the map; and each later tier fires when all
earlier tiers miss (hyphen/period normalization, Jr-suffix stripping,
token-set reordering). -/
theorem match_player_injury_spec :
    (∀ (p : Name) (inj : List (Name × Name)) (s : Name),
      findStatus inj (fun k => k == p) = some s →
      match_player_injury p inj = some s) ∧
    (∀ (p : Name) (inj : List (Name × Name)) (s : Name),
      findStatus inj (fun k => k == p) = none →
      findStatus inj
        (fun k => normalize_player_name k == normalize_player_name p) =
        some s →
      match_player_injury p inj = some s) ∧
    (∀ (p : Name) (inj : List (Name × Name)) (s : Name),
      findStatus inj (fun k => k == p) = none →
      findStatus inj
        (fun k => normalize_player_name k == normalize_player_name p) =
        none →
      findStatus inj (fun k => _strip_suffix (normalize_player_name k) ==
        _strip_suffix (normalize_player_name p)) = some s →
      match_player_injury p inj = some s) ∧
    (∀ (p : Name) (inj : List (Name × Name)) (s : Name),
      findStatus inj (fun k => k == p) = none →
      findStatus inj
        (fun k => normalize_player_name k == normalize_player_name p) =
        none →
      findStatus inj (fun k => _strip_suffix (normalize_player_name k) ==
        _strip_suffix (normalize_player_name p)) = none →
      findStatus inj
        (loose_match ((wordsOf (normalize_player_name p)).dedup)) = some s →
      match_player_injury p inj = some s) ∧
    (∀ (p : Name) (inj : List (Name × Name)),
      findStatus inj (fun k => k == p) = none →
      findStatus inj
        (fun k => normalize_player_name k == normalize_player_name p) =
        none →
      findStatus inj (fun k => _strip_suffix (normalize_player_name k) ==
        _strip_suffix (normalize_player_name p)) = none →
      findStatus inj
        (loose_match ((wordsOf (normalize_player_name p)).dedup)) = none →
      match_player_injury p inj = none) ∧
    match_player_injury "Gary Payton II".data
      [("GARY PAYTON II".data, "Questionable".data),
       ("Gary Payton II".data, "Out".data)] = some "Out".data ∧
    match_player_injury "Dorian Finney-Smith".data
      [("Dorian Finney Smith".data, "Questionable".data)] =
      some "Questionable".data ∧
    match_player_injury "Jaren Jackson Jr.".data
      [("Jaren Jackson".data, "Out".data)] = some "Out".data ∧
    match_player_injury "LeBron James".data
      [("James LeBron".data, "Probable".data)] = some "Probable".data ∧
    match_player_injury "Nikola Jokić".data [] = none := by
  refine ⟨?_, ?_, ?_, ?_, ?_, by decide, by decide, by decide, by decide,
    by decide⟩
  · intro p inj s h1
    simp only [match_player_injury, h1]
  · intro p inj s h1 h2
    simp only [match_player_injury, h1, h2]
  · intro p inj s h1 h2 h3
    simp only [match_player_injury, h1, h2, h3]
  · intro p inj s h1 h2 h3 h4
    simp only [match_player_injury, h1, h2, h3, h4]
  · intro p inj h1 h2 h3 h4
    simp only [match_player_injury, h1, h2, h3, h4]

/-- Witness for C8's tier clauses at concrete inputs: the exact tier
fires for an exactly-listed name even when a case-variant entry earlier
in the map would match the normalized tier. -/
theorem match_player_injury_spec_witness :
    match_player_injury "Kevin Durant".data
      [("KEVIN DURANT".data, "Questionable".data),
       ("Kevin Durant".data, "Out".data)] = some "Out".data :=
  match_player_injury_spec.1 "Kevin Durant".data
    [("KEVIN DURANT".data, "Questionable".data),
     ("Kevin Durant".data, "Out".data)] "Out".data (by decide)

/-- Looking up a key absent from the association list yields `none`. -/
theorem dict_get_eq_none (l : List (ℕ × ℚ)) (t : ℕ)
    (h : t ∉ l.map Prod.fst) : dict_get l t = none := by
  induction l with
  | nil => rfl
  | cons p rest ih =>
    obtain ⟨k, v⟩ := p
    simp only [List.map_cons, List.mem_cons, not_or] at h
    obtain ⟨h1, h2⟩ := h
    simp only [dict_get, ih h2]
    exact if_neg (fun e => h1 e.symm)

/-- A successful lookup returns one of the stored values. -/
theorem dict_get_mem_snd (l : List (ℕ × ℚ)) (t : ℕ) (v : ℚ)
    (h : dict_get l t = some v) : v ∈ l.map Prod.snd := by
  induction l with
  | nil => simp [dict_get] at h
  | cons p rest ih =>
    obtain ⟨k, w⟩ := p
    simp only [dict_get] at h
    cases hd : dict_get rest t with
    | some u =>
      rw [hd] at h
      have : u = v := by injection h
      subst this
      exact List.mem_cons_of_mem _ (ih hd)
    | none =>
      rw [hd] at h
      by_cases hk : k = t
      · rw [if_pos hk] at h
        have : w = v := by injection h
        subst this
        exact List.mem_cons_self _ _
      · rw [if_neg hk] at h
        exact absurd h (by simp)

/-- With distinct keys, looking up a listed row's key in the mapped
association list returns that row's value. -/
theorem dict_get_map_nodup (rows : List (ℕ × OppStats))
    (g : ℕ × OppStats → ℚ) (hnd : (rows.map Prod.fst).Nodup)
    (r : ℕ × OppStats) (hr : r ∈ rows) :
    dict_get (rows.map (fun p => (p.1, g p))) r.1 = some (g r) := by
  induction rows with
  | nil => simp at hr
  | cons p rest ih =>
    simp only [List.map_cons, List.nodup_cons] at hnd
    obtain ⟨hp, hnd'⟩ := hnd
    rcases List.mem_cons.mp hr with he | hm
    · subst he
      have habs : dict_get (rest.map (fun p => (p.1, g p))) r.1 = none := by
        apply dict_get_eq_none
        simpa [List.map_map, Function.comp] using hp
      simp [List.map_cons, dict_get, habs]
    · have hrec := ih hnd' hm
      simp only [List.map_cons, dict_get, hrec]

/-- C5 (amended): the team defense factor is always within [0.7, 1.3];
a failed fetch gives exactly 1 for every team; a team absent from the
fetched rows gives exactly 1; and on a successful fetch with distinct
team ids and positive league average, each listed team's factor is its
estimated TTFL allowed divided by the league average of that estimate,
clamped to [0.7, 1.3].  (When the league average is not positive the
source's `if league_avg > 0` guard leaves every factor at the neutral
1.0 instead.) -/
theorem get_defense_factor_spec :
    (∀ (team : ℕ) (data : Option (List (ℕ × OppStats))),
      0.7 ≤ get_defense_factor team data ∧
      get_defense_factor team data ≤ 1.3) ∧
    (∀ team : ℕ, get_defense_factor team none = 1) ∧
    (∀ (rows : List (ℕ × OppStats)) (team : ℕ),
      team ∉ rows.map Prod.fst →
      get_defense_factor team (some rows) = 1) ∧
    (∀ (rows : List (ℕ × OppStats)) (r : ℕ × OppStats),
      (rows.map Prod.fst).Nodup → r ∈ rows →
      0 < (rows.map (fun p => _calculate_estimated_ttfl_allowed p.2)).sum /
        ((rows.map (fun p => _calculate_estimated_ttfl_allowed p.2)).length : ℚ) →
      get_defense_factor r.1 (some rows) =
        max 0.7 (min 1.3 (_calculate_estimated_ttfl_allowed r.2 /
          ((rows.map (fun p => _calculate_estimated_ttfl_allowed p.2)).sum /
            ((rows.map (fun p => _calculate_estimated_ttfl_allowed p.2)).length : ℚ))))) := by
  have hM : MAX_DEFENSE_ADJUSTMENT = 0.3 := by norm_num [MAX_DEFENSE_ADJUSTMENT]
  refine ⟨?_, ?_, ?_, ?_⟩
  · intro team data
    cases data with
    | none =>
      constructor <;> norm_num [get_defense_factor, fetch_team_defense_stats,
        dict_get]
    | some rows =>
      simp only [get_defense_factor]
      cases hd : dict_get (fetch_team_defense_stats (some rows)) team with
      | none => constructor <;> norm_num
      | some f =>
        have hmem := dict_get_mem_snd _ _ _ hd
        simp only [fetch_team_defense_stats, List.map_map] at hmem
        obtain ⟨r, hr, hf⟩ := List.mem_map.mp hmem
        simp only [Function.comp] at hf
        rw [← hf]
        split_ifs
        · rw [hM]
          constructor
          · exact le_trans (by norm_num) (le_max_left _ _)
          · exact max_le (by norm_num)
              (le_trans (min_le_left _ _) (by norm_num))
        · constructor <;> norm_num
  · intro team
    norm_num [get_defense_factor, fetch_team_defense_stats, dict_get]
  · intro rows team h
    simp only [get_defense_factor, fetch_team_defense_stats]
    rw [dict_get_eq_none _ _ (by simpa [List.map_map, Function.comp] using h)]
    norm_num
  · intro rows r hnd hr havg
    simp only [get_defense_factor, fetch_team_defense_stats]
    rw [dict_get_map_nodup rows _ hnd r hr]
    rw [if_pos havg, hM]
    norm_num

/-- C5 counterexample: for the fetched rows
`[(1, TOV=100), (2, TOV=25)]` the estimates are −17 and −2, the league
average is −9.5, and the claim's formula (estimate ÷ league average,
clamped) gives 1.3 for team 1, while `get_defense_factor` returns 1.0
because the source only applies the formula when the league average is
positive. -/
theorem get_defense_factor_counterexample :
    get_defense_factor 1 (some [(1, oppStatsTovOnly 100),
      (2, oppStatsTovOnly 25)]) = 1 ∧
    max 0.7 (min 1.3 (_calculate_estimated_ttfl_allowed (oppStatsTovOnly 100) /
      (([(1, oppStatsTovOnly 100), (2, oppStatsTovOnly 25)].map
          (fun p => _calculate_estimated_ttfl_allowed p.2)).sum /
        (([(1, oppStatsTovOnly 100), (2, oppStatsTovOnly 25)].map
          (fun p => _calculate_estimated_ttfl_allowed p.2)).length : ℚ)))) = 1.3 ∧
    (1 : ℚ) ≠ 1.3 := by
  refine ⟨?_, ?_, by norm_num⟩
  · have hest : _calculate_estimated_ttfl_allowed (oppStatsTovOnly 100) = -17 := by
      norm_num [_calculate_estimated_ttfl_allowed, oppStatsTovOnly]
    have hest2 : _calculate_estimated_ttfl_allowed (oppStatsTovOnly 25) = -2 := by
      norm_num [_calculate_estimated_ttfl_allowed, oppStatsTovOnly]
    simp only [get_defense_factor, fetch_team_defense_stats, List.map_cons,
      List.map_nil, hest, hest2, List.sum_cons, List.sum_nil, List.length_cons,
      List.length_nil]
    norm_num [dict_get]
  · have hest : _calculate_estimated_ttfl_allowed (oppStatsTovOnly 100) = -17 := by
      norm_num [_calculate_estimated_ttfl_allowed, oppStatsTovOnly]
    have hest2 : _calculate_estimated_ttfl_allowed (oppStatsTovOnly 25) = -2 := by
      norm_num [_calculate_estimated_ttfl_allowed, oppStatsTovOnly]
    simp only [List.map_cons, List.map_nil, hest, hest2, List.sum_cons,
      List.sum_nil, List.length_cons, List.length_nil]
    have hdiv : (-17 : ℚ) / ((-17 + (-2 + 0)) / ((0 + 1 + 1 : ℕ) : ℚ)) = 34 / 19 := by
      norm_num
    rw [hdiv, min_eq_left (by norm_num), max_eq_right (by norm_num)]

/-- Witness for the amended C5 at a one-team fetch with positive league
average, plus an absent team defaulting to 1. -/
theorem get_defense_factor_spec_witness :
    get_defense_factor 7 (some [(1, oppStatsTovOnly 0)]) = 1 ∧
    get_defense_factor 1 (some [(1, oppStatsTovOnly 0)]) =
      max 0.7 (min 1.3 (_calculate_estimated_ttfl_allowed (oppStatsTovOnly 0) /
        (([(1, oppStatsTovOnly 0)].map
            (fun p => _calculate_estimated_ttfl_allowed p.2)).sum /
          (([(1, oppStatsTovOnly 0)].map
            (fun p => _calculate_estimated_ttfl_allowed p.2)).length : ℚ)))) :=
  ⟨get_defense_factor_spec.2.2.1 [(1, oppStatsTovOnly 0)] 7 (by norm_num),
   get_defense_factor_spec.2.2.2 [(1, oppStatsTovOnly 0)] (1, oppStatsTovOnly 0)
     (by norm_num) (by norm_num)
     (by norm_num [_calculate_estimated_ttfl_allowed, oppStatsTovOnly])⟩

/-- C3 counterexample: the series `[1002, 1001, 1000]` (most-recent
first) is strictly increasing toward the most recent game and has length
3, yet `calculate_trend_factor` labels it `"stable"`, not `"hot"`: the
slope is positive but tiny relative to the mean, so the capped adjustment
0.003 does not exceed the 0.05 threshold for the `"hot"` label. -/
theorem calculate_trend_factor_counterexample :
    List.Pairwise (· > ·) ([1002, 1001, 1000] : List ℚ) ∧
    3 ≤ ([1002, 1001, 1000] : List ℚ).length ∧
    (calculate_trend_factor [1002, 1001, 1000]).2 = "stable" ∧
    "stable" ≠ "hot" := by
  have hrev : ([1002, 1001, 1000] : List ℚ).reverse = [1000, 1001, 1002] := by
    norm_num
  refine ⟨?_, by norm_num, ?_, by decide⟩
  · norm_num [List.pairwise_cons]
  · have heq := calculate_trend_factor_main [1002, 1001, 1000]
      (by norm_num) 2 2 1001 (by norm_num) (by norm_num) ?_ ?_ ?_
    · rw [heq, hrev]
      have hM : MAX_TREND_ADJUSTMENT = 0.2 := by norm_num [MAX_TREND_ADJUSTMENT]
      rw [hM]
      have hraw : (2 : ℚ) / 2 / 1001 * (([1000, 1001, 1002] : List ℚ).length : ℚ) =
          3 / 1001 := by
        norm_num
      rw [hraw, min_eq_right (by norm_num), max_eq_right (by norm_num),
        if_neg (by norm_num), if_neg (by norm_num)]
    · rw [hrev]
      norm_num [Finset.sum_range_succ, List.sum_cons]
    · rw [hrev]
      norm_num [Finset.sum_range_succ]
    · rw [hrev]
      norm_num [List.sum_cons]

/-- Witness for the amended C3 at the concrete rising series
`[30, 20, 10]`, whose slope is steep enough to produce the `"hot"`
label. -/
theorem calculate_trend_factor_monotone_witness :
    1 < (calculate_trend_factor [30, 20, 10]).1 ∧
    (calculate_trend_factor [30, 20, 10]).1 ≤ 1.2 ∧
    ((calculate_trend_factor [30, 20, 10]).2 = "hot" ∨
      (calculate_trend_factor [30, 20, 10]).2 = "stable") :=
  (calculate_trend_factor_monotone [30, 20, 10] (by norm_num)
    (by norm_num)).1 (by norm_num [List.pairwise_cons])

/-- C7: for every square-root model with `sqrtQ 0 = 0`, the consistency
factor always lies in [0.85, 1]; a series of identical repeated values
(zero variance) yields exactly 1; fewer than 3 elements or zero mean
yields 1; and with at least 3 elements and non-zero mean the factor is 1
when the coefficient of variation is at most 0.2 and
`1 − min 1 ((CV − 0.2)/0.3) × 0.15` otherwise. -/
theorem calculate_consistency_factor_spec (sqrtQ : ℚ → ℚ) (h0 : sqrtQ 0 = 0) :
    (∀ scores : List ℚ,
      0.85 ≤ calculate_consistency_factor sqrtQ scores ∧
      calculate_consistency_factor sqrtQ scores ≤ 1) ∧
    (∀ (c : ℚ) (n : ℕ), 3 ≤ n →
      calculate_consistency_factor sqrtQ (List.replicate n c) = 1) ∧
    (∀ scores : List ℚ, scores.length < 3 →
      calculate_consistency_factor sqrtQ scores = 1) ∧
    (∀ scores : List ℚ, scores.sum / (scores.length : ℚ) = 0 →
      calculate_consistency_factor sqrtQ scores = 1) ∧
    (∀ scores : List ℚ, 3 ≤ scores.length →
      scores.sum / (scores.length : ℚ) ≠ 0 →
      calculate_consistency_factor sqrtQ scores =
        (if sample_cv sqrtQ scores ≤ 0.2 then 1
         else 1 - min 1 ((sample_cv sqrtQ scores - 0.2) / 0.3) * 0.15)) := by
  have hbound : ∀ scores : List ℚ,
      0.85 ≤ calculate_consistency_factor sqrtQ scores ∧
      calculate_consistency_factor sqrtQ scores ≤ 1 := by
    intro scores
    simp only [calculate_consistency_factor]
    split_ifs with h1 h2 h3
    · constructor <;> norm_num
    · constructor <;> norm_num
    · constructor <;> norm_num
    · push_neg at h3
      set cv := sqrtQ ((scores.map
          (fun x => (x - scores.sum / (scores.length : ℚ)) ^ 2)).sum /
        ((scores.length : ℚ) - 1)) / (scores.sum / (scores.length : ℚ)) with hcv
      have hp1 : min (1.0 : ℚ) ((cv - 0.2) / 0.3) ≤ 1 := by
        refine le_trans (min_le_left _ _) (by norm_num)
      have hp0 : 0 ≤ min (1.0 : ℚ) ((cv - 0.2) / 0.3) := by
        refine le_min (by norm_num) (div_nonneg ?_ (by norm_num))
        have h02 : (0.2 : ℚ) < cv := h3
        linarith
      have hmul1 : min (1.0 : ℚ) ((cv - 0.2) / 0.3) * MAX_CONSISTENCY_PENALTY ≤
          MAX_CONSISTENCY_PENALTY := by
        have hpen : (0 : ℚ) ≤ MAX_CONSISTENCY_PENALTY := by
          norm_num [MAX_CONSISTENCY_PENALTY]
        calc min (1.0 : ℚ) ((cv - 0.2) / 0.3) * MAX_CONSISTENCY_PENALTY ≤
            1 * MAX_CONSISTENCY_PENALTY := mul_le_mul_of_nonneg_right hp1 hpen
          _ = MAX_CONSISTENCY_PENALTY := one_mul _
      have hmul0 : (0 : ℚ) ≤ min (1.0 : ℚ) ((cv - 0.2) / 0.3) *
          MAX_CONSISTENCY_PENALTY :=
        mul_nonneg hp0 (by norm_num [MAX_CONSISTENCY_PENALTY])
      have hpen15 : MAX_CONSISTENCY_PENALTY = 0.15 := rfl
      rw [hpen15] at hmul1 hmul0 ⊢
      constructor
      · linarith
      · linarith
  refine ⟨hbound, ?_, ?_, ?_, ?_⟩
  · intro c n h3
    by_cases hc : c = 0
    · subst hc
      simp only [calculate_consistency_factor, List.length_replicate,
        List.sum_replicate, smul_zero, zero_div]
      rw [if_neg (by omega : ¬n < 3)]
      norm_num
    · have hn0 : ((n : ℕ) : ℚ) ≠ 0 := Nat.cast_ne_zero.mpr (by omega)
      have hmean : (List.replicate n c).sum / ((n : ℕ) : ℚ) = c := by
        rw [List.sum_replicate, nsmul_eq_mul]
        exact mul_div_cancel_left₀ c hn0
      simp only [calculate_consistency_factor, List.length_replicate]
      rw [if_neg (by omega : ¬n < 3), hmean, if_neg hc]
      have hvar : ((List.replicate n c).map (fun x => (x - c) ^ 2)).sum = 0 := by
        simp [List.map_replicate]
      rw [hvar, zero_div, h0, zero_div, if_pos (by norm_num)]
      norm_num
  · intro scores h
    simp only [calculate_consistency_factor, if_pos h]
    norm_num
  · intro scores hmean
    simp only [calculate_consistency_factor]
    split_ifs with h1
    · norm_num
    · norm_num
  · intro scores hlen hmean
    simp only [calculate_consistency_factor, sample_cv,
      if_neg (not_lt.mpr hlen), if_neg hmean]
    split_ifs with h1
    · norm_num
    · norm_num [MAX_CONSISTENCY_PENALTY]

/-- Witness for C7 at concrete inputs: the constant series `[5, 5, 5]`
has factor exactly 1 and the series `[4, 5, 6]` respects the lower
bound, both instantiated with the zero square-root model. -/
theorem calculate_consistency_factor_spec_witness :
    calculate_consistency_factor (fun _ => 0) (List.replicate 3 (5 : ℚ)) = 1 ∧
    0.85 ≤ calculate_consistency_factor (fun _ => 0) [4, 5, 6] :=
  ⟨(calculate_consistency_factor_spec (fun _ => 0) rfl).2.1 5 3 (by norm_num),
   ((calculate_consistency_factor_spec (fun _ => 0) rfl).1 [4, 5, 6]).1⟩

/-- C1: `calculate_ttfl` returns exactly
(PTS+REB+AST+STL+BLK+FGM+FG3M+FTM) − (TOV + (FGA−FGM) + (FG3A−FG3M) +
(FTA−FTM)) as an integer, with missing/null fields read as 0, for every
stat line (it is a pure function, hence deterministic); in particular the
line PTS=25, REB=8, AST=6, STL=2, BLK=1, FGM=10, FGA=18, 3PM=3, 3PA=7,
FTM=2, FTA=3, TOV=3 yields 41. -/
theorem calculate_ttfl_formula :
    (∀ s : BoxStats, calculate_ttfl s =
      (s.PTS.getD 0 + s.REB.getD 0 + s.AST.getD 0 + s.STL.getD 0 +
        s.BLK.getD 0 + s.FGM.getD 0 + s.FG3M.getD 0 + s.FTM.getD 0) -
      (s.TOV.getD 0 + (s.FGA.getD 0 - s.FGM.getD 0) +
        (s.FG3A.getD 0 - s.FG3M.getD 0) + (s.FTA.getD 0 - s.FTM.getD 0))) ∧
    calculate_ttfl ⟨some 25, some 8, some 6, some 2, some 1, some 10,
      some 18, some 3, some 7, some 2, some 3, some 3⟩ = 41 := by
  constructor
  · intro s
    rfl
  · rfl

/-- C2: `calculate_final_score` composes exactly as
`(use_form ? weighted_avg × trend × consistency : simple_avg)`, then a
`defense_factor × defender_factor` multiplication only when `use_defense`
is set, then a `× (1 − dnp_risk)` discount; and `dnp_risk = 1` forces the
result to exactly 0 regardless of every other input. -/
theorem calculate_final_score_formula :
    (∀ (fa : FormAnalysis) (df dd dnp : ℚ) (uf ud : Bool),
      calculate_final_score fa df dd dnp uf ud =
        (if uf then fa.weighted_avg * fa.trend_factor * fa.consistency_factor
          else fa.simple_avg) *
        (if ud then df * dd else 1) * (1 - dnp)) ∧
    (∀ (fa : FormAnalysis) (df dd : ℚ) (uf ud : Bool),
      calculate_final_score fa df dd 1 uf ud = 0) := by
  constructor
  · intro fa df dd dnp uf ud
    cases uf <;> cases ud <;>
      simp only [calculate_final_score, calculate_form_score,
        if_true, if_false, Bool.false_eq_true, ite_true, ite_false] <;>
      ring
  · intro fa df dd uf ud
    cases uf <;> cases ud <;>
      simp only [calculate_final_score, calculate_form_score,
        if_true, if_false, Bool.false_eq_true, ite_true, ite_false] <;>
      ring
